import Mathlib

/-!
Verification development for the autotype repository (src/autotype.py).

The program keeps an ordered collection of command entries (Python dicts,
persisted as a JSON array in commands.json), edited through a form and
compiled into abbreviation registrations when listening starts.  We embed
the JSON values manipulated by the program, the save-button handler
(add / add-child / update paths), the load logic of the CommandList class
body, the listen_keys compilation loop, the compose tree display, and the
trigger normalization performed by Form.on_input_changed.
-/

namespace Autotype

/-- A JSON-like value as manipulated by the Python code: strings, numbers,
arrays and objects (dicts with insertion order, as in Python 3.7+). -/
inductive V where
  | vstr (s : String)
  | vnum (n : Int)
  | varr (xs : List V)
  | vobj (fs : List (String × V))

/-- The Python exceptions the embedded code can raise. -/
inductive PyErr where
  | indexError
  | keyError (k : String)
  | typeError
deriving Repr, DecidableEq

/-- Lookup of a key in a dict field list (first match, as in a Python dict,
whose keys are unique by construction of the values we build). -/
def fieldsGet (fs : List (String × V)) (k : String) : Option V :=
  match fs with
  | [] => none
  | (k2, v) :: tl => if k2 = k then some v else fieldsGet tl k

/-- Python dict item assignment d[k] = x: replaces the value of an existing
key in place (keeping its position), otherwise appends the new key. -/
def fieldsSet (fs : List (String × V)) (k : String) (x : V) : List (String × V) :=
  match fs with
  | [] => [(k, x)]
  | (k2, v) :: tl => if k2 = k then (k2, x) :: tl else (k2, v) :: fieldsSet tl k x

/-- The ordered list of keys of a dict value (empty for non-dicts). -/
def fieldKeys (v : V) : List String :=
  match v with
  | .vobj fs => fs.map (·.1)
  | _ => []

/-- Python d[k] on a value: KeyError on a dict without the key, TypeError
when the value is not a dict at all. -/
def objGet (v : V) (k : String) : Except PyErr V :=
  match v with
  | .vobj fs =>
    match fieldsGet fs k with
    | some x => .ok x
    | none => .error (.keyError k)
  | _ => .error .typeError

/-- Python d[k] = x on a value (TypeError when the target is not a dict). -/
def objSet (v : V) (k : String) (x : V) : Except PyErr V :=
  match v with
  | .vobj fs => .ok (.vobj (fieldsSet fs k x))
  | _ => .error .typeError

/-- Python list indexing xs[i] for a non-negative index: IndexError when the
index is out of range. -/
def listGet (xs : List V) (i : Nat) : Except PyErr V :=
  match xs, i with
  | [], _ => .error .indexError
  | x :: _, 0 => .ok x
  | _ :: tl, n + 1 => listGet tl n

/-- Replacement of the element at a position of a list (the functional image
of an in-place Python mutation of xs[i]). -/
def listSet (xs : List V) (i : Nat) (x : V) : Except PyErr (List V) :=
  match xs, i with
  | [], _ => .error .indexError
  | _ :: tl, 0 => .ok (x :: tl)
  | y :: tl, n + 1 => (listSet tl n x).map (y :: ·)

/-- Extraction of a string value (TypeError otherwise, modelling the string
operations the keyboard registration applies to its arguments). -/
def asStr (v : V) : Except PyErr String :=
  match v with
  | .vstr s => .ok s
  | _ => .error .typeError

/-- The Python comparison command["type"] == "parent": true exactly on the
string value "parent", false on any other value (no error). -/
def isParentTy (v : V) : Bool :=
  match v with
  | .vstr s => s == "parent"
  | _ => false

/-- The reactive form state read by the save-button branch of
AutoTypeApp.on_button_pressed: index and parent as set by tree selection or
by the Add and Add Child buttons, and the three field values last stored by
the form input handlers. -/
structure FormData where
  index : Option Nat
  parent : Option Nat
  name : String
  command : String
  text : String

/-- Embedding of the save branch of AutoTypeApp.on_button_pressed
(src/autotype.py lines 277-305): updates the addressed entry in place when
data has an index, otherwise builds a new dict (type parent, empty children
at top level; type rewritten to child when appended under a parent) and
appends it.  An uncaught Python exception is an error result. -/
def saveCommands (commands : List V) (data : FormData) : Except PyErr (List V) :=
  match data.index with
  | some i =>
    match data.parent with
    | some p => do
      let par ← listGet commands p
      let ch ← objGet par "children"
      match ch with
      | .varr chl => do
        let c ← listGet chl i
        let c ← objSet c "name" (.vstr data.name)
        let c ← objSet c "command" (.vstr data.command)
        let c ← objSet c "text" (.vstr data.text)
        let chl2 ← listSet chl i c
        let par2 ← objSet par "children" (.varr chl2)
        listSet commands p par2
      | _ => .error .typeError
    | none => do
      let c ← listGet commands i
      let c ← objSet c "name" (.vstr data.name)
      let c ← objSet c "command" (.vstr data.command)
      let c ← objSet c "text" (.vstr data.text)
      listSet commands i c
  | none =>
    let newCommand : V := .vobj
      [("name", .vstr data.name), ("command", .vstr data.command),
       ("text", .vstr data.text), ("type", .vstr "parent"),
       ("children", .varr [])]
    match data.parent with
    | some p => do
      let newChild ← objSet newCommand "type" (.vstr "child")
      let par ← listGet commands p
      let ch ← objGet par "children"
      match ch with
      | .varr chl => do
        let par2 ← objSet par "children" (.varr (chl ++ [newChild]))
        listSet commands p par2
      | _ => .error .typeError
    | none => .ok (commands ++ [newCommand])

/-- The persisted commands.json as seen through the json library boundary:
none when the file is absent, some none when it exists but does not parse
as JSON, some (some v) when it parses to the value v. -/
abbrev StoreFile := Option (Option V)

/-- What the class body of CommandList (src/autotype.py lines 64-71)
leaves behind: the in-memory commands value, the file content afterwards,
and whether any exception escaped to the caller. -/
structure LoadOutcome where
  commands : V
  fileAfter : Option V
  errorSurfaced : Bool

/-- Embedding of the load logic in the CommandList class body: commands
defaults to an empty list, a successful json.load replaces it with the
parsed value and leaves the file alone, and ANY exception (absent file or
unparsable content alike) is swallowed while the file is rewritten to hold
the empty array. -/
def loadStore (file : StoreFile) : LoadOutcome :=
  match file with
  | some (some v) => ⟨v, some v, false⟩
  | some none => ⟨.varr [], some (.varr []), false⟩
  | none => ⟨.varr [], some (.varr []), false⟩

/-- The registration the inner listen_keys loop performs for one child of
a parent entry (src/autotype.py line 250): the parent command concatenated
with the child command, paired with the child text. -/
def childPairOf (cmd : String) (cc : V) : Except PyErr (String × String) := do
  let ccmd ← asStr (← objGet cc "command")
  let ctxt ← asStr (← objGet cc "text")
  pure (cmd ++ ccmd, ctxt)

/-- The inner for-loop of listen_keys over the children of a parent entry,
in order. -/
def childrenPairs (cmd : String) (xs : List V) :
    Except PyErr (List (String × String)) :=
  match xs with
  | [] => .ok []
  | cc :: tl => do
    let p ← childPairOf cmd cc
    let rest ← childrenPairs cmd tl
    pure (p :: rest)

/-- The (trigger, expansion) registrations the body of the listen_keys
loop performs for one top-level entry (src/autotype.py lines 246-250):
the entry registers its own command and text, and an entry whose type
equals "parent" additionally registers its compound child pairs. -/
def entryPairs (c : V) : Except PyErr (List (String × String)) := do
  let cmd ← asStr (← objGet c "command")
  let txt ← asStr (← objGet c "text")
  let ty ← objGet c "type"
  if isParentTy ty then
    let ch ← objGet c "children"
    match ch with
    | .varr xs =>
      let childPairs ← childrenPairs cmd xs
      pure ((cmd, txt) :: childPairs)
    | _ => .error .typeError
  else
    pure [(cmd, txt)]

/-- Embedding of the AutoTypeApp.listen_keys loop (src/autotype.py lines
243-251): the ordered sequence of abbreviation registrations made before
blocking on the stop key. -/
def listenPairs (commands : List V) : Except PyErr (List (String × String)) :=
  match commands with
  | [] => .ok []
  | c :: rest => do
    let ps ← entryPairs c
    let rs ← listenPairs rest
    pure (ps ++ rs)

/-- The node data dict attached to a tree node by CommandList.compose. -/
structure NodeData where
  index : Nat
  parent : Option Nat
  ty : String
  name : String
  command : String
  text : String

/-- The leaves CommandList.compose adds for the children of a parent entry
(src/autotype.py lines 87-95), with their enumeration indices. -/
def composeChildren (parentIndex : Nat) (i : Nat) (xs : List V) :
    Except PyErr (List NodeData) :=
  match xs with
  | [] => .ok []
  | cc :: tl => do
    let n ← asStr (← objGet cc "name")
    let cmd ← asStr (← objGet cc "command")
    let txt ← asStr (← objGet cc "text")
    let rest ← composeChildren parentIndex (i + 1) tl
    pure (⟨i, some parentIndex, "child", n, cmd, txt⟩ :: rest)

/-- The tree nodes CommandList.compose builds for one top-level entry
(src/autotype.py lines 77-104): a branch with its children when the type
equals "parent", otherwise a single leaf; the children field is only read
in the parent branch. -/
def composeEntry (index : Nat) (c : V) : Except PyErr (List NodeData) := do
  let ty ← objGet c "type"
  if isParentTy ty then
    let n ← asStr (← objGet c "name")
    let cmd ← asStr (← objGet c "command")
    let txt ← asStr (← objGet c "text")
    let ch ← objGet c "children"
    match ch with
    | .varr xs => do
      let childNodes ← composeChildren index 0 xs
      pure (⟨index, none, "parent", n, cmd, txt⟩ :: childNodes)
    | _ => .error .typeError
  else do
    let n ← asStr (← objGet c "name")
    let cmd ← asStr (← objGet c "command")
    let txt ← asStr (← objGet c "text")
    pure [⟨index, none, "child", n, cmd, txt⟩]

/-- Embedding of the whole CommandList.compose enumeration loop. -/
def composeTree (i : Nat) (commands : List V) : Except PyErr (List NodeData) :=
  match commands with
  | [] => .ok []
  | c :: rest => do
    let ns ← composeEntry i c
    let rs ← composeTree (i + 1) rest
    pure (ns ++ rs)

/-- The Python test input_value.startswith("/") performed by
Form.on_input_changed. -/
def startsWithSlash (v : String) : Bool :=
  match v.data with
  | [] => false
  | ch :: _ => ch = '/'

/-- One run of Form.on_input_changed for the command input
(src/autotype.py lines 24-31): first component is the value stored into
the reactive form data (always the incoming value), second component is
the value written back into the widget when the delimiter was missing,
which makes the widget fire the handler once more. -/
def onCommandChanged (v : String) : String × Option String :=
  if startsWithSlash v then (v, none) else (v, some ("/" ++ v))

/-- The command value left in the form data once the event cascade started
by one input change has settled. -/
def storedCommand (v : String) : String :=
  match onCommandChanged v with
  | (s, none) => s
  | (_, some v2) => (onCommandChanged v2).1

/-- JSON string escaping of one character, as the json library applies when
dumping (quote, backslash and common control characters). -/
def escCh (c : Char) : List Char :=
  if c = '"' then ['\\', '"']
  else if c = '\\' then ['\\', '\\']
  else if c = '\n' then ['\\', 'n']
  else if c = '\t' then ['\\', 't']
  else if c = '\r' then ['\\', 'r']
  else [c]

/-- A JSON string literal for s. -/
def escapeStr (s : String) : String :=
  "\"" ++ String.mk (s.data.flatMap escCh) ++ "\""

/-- n spaces of indentation. -/
def spaces (n : Nat) : String :=
  String.mk (List.replicate n ' ')

mutual

/-- Model of the json library dump of a value with indent=2, as invoked by
json.dump(..., file, indent=2): a deterministic function of the value. -/
def serializeV (ind : Nat) : V → String
  | .vstr s => escapeStr s
  | .vnum n => toString n
  | .varr [] => "[]"
  | .varr (x :: xs) =>
    "[\n" ++ serializeItems (ind + 2) (x :: xs) ++ "\n" ++ spaces ind ++ "]"
  | .vobj [] => "\x7b\x7d"
  | .vobj (f :: fs) =>
    "\x7b\n" ++ serializeFields (ind + 2) (f :: fs) ++ "\n" ++ spaces ind ++ "\x7d"

/-- Array items, one per line, comma separated. -/
def serializeItems (ind : Nat) : List V → String
  | [] => ""
  | [x] => spaces ind ++ serializeV ind x
  | x :: y :: tl =>
    spaces ind ++ serializeV ind x ++ ",\n" ++ serializeItems ind (y :: tl)

/-- Object fields, one per line, comma separated. -/
def serializeFields (ind : Nat) : List (String × V) → String
  | [] => ""
  | [(k, v)] => spaces ind ++ escapeStr k ++ ": " ++ serializeV ind v
  | (k, v) :: f :: tl =>
    spaces ind ++ escapeStr k ++ ": " ++ serializeV ind v ++ ",\n" ++
      serializeFields ind (f :: tl)

end

/-- The bytes json.dump(commands, file, indent=2) writes for a value. -/
def serializeJ (v : V) : String := serializeV 0 v

/-- A child entry as typed data: the three string fields of the persisted
child layout. -/
structure TChild where
  name : String
  command : String
  text : String

/-- A top-level entry as typed data: a parent with its ordered children, or
a standalone leaf stored with type child and no children field. -/
inductive TEntry where
  | parent (name command text : String) (children : List TChild)
  | leaf (name command text : String)

/-- The dict a typed child corresponds to in the persisted layout. -/
def childDict (cc : TChild) : V :=
  .vobj [("name", .vstr cc.name), ("command", .vstr cc.command),
         ("text", .vstr cc.text)]

/-- The dict a typed top-level entry corresponds to in the persisted
layout. -/
def toDict : TEntry → V
  | .parent n c t ch =>
    .vobj [("name", .vstr n), ("command", .vstr c), ("text", .vstr t),
           ("type", .vstr "parent"), ("children", .varr (ch.map childDict))]
  | .leaf n c t =>
    .vobj [("name", .vstr n), ("command", .vstr c), ("text", .vstr t),
           ("type", .vstr "child")]

/-- Stated from the spec wording of compile (section 4.3): for every
top-level entry emit the pair of its trigger and text, and for every Parent
additionally emit, for each child, the pair of the parent trigger
concatenated with the child trigger, and the child text. -/
def specEntryPairs : TEntry → List (String × String)
  | .leaf _ c t => [(c, t)]
  | .parent _ c t ch => (c, t) :: ch.map (fun cc => (c ++ cc.command, cc.text))

/-- Stated from the spec wording: the whole compiled pair sequence, in
collection order. -/
def specCompile (ts : List TEntry) : List (String × String) :=
  (ts.map specEntryPairs).flatten

/-- Modelled from the spec: the Listener Adapter registration table
(sections 4.3 and 4.4, not implemented by this repository), where
registering an already armed trigger overwrites it, so a lookup returns
the expansion of the last registration of that trigger. -/
def regLookup (ps : List (String × String)) (k : String) : Option String :=
  match ps.reverse.find? (fun p => p.1 == k) with
  | some p => some p.2
  | none => none

/-- The field k of a dict field list exists and holds a string. -/
def strField (fs : List (String × V)) (k : String) : Bool :=
  match fieldsGet fs k with
  | some (V.vstr _) => true
  | _ => false

/-- A dict in a children array is well formed when its three required
fields are present strings (extra fields are allowed: the app itself
appends children carrying two more). -/
def wfChildDict (v : V) : Bool :=
  match v with
  | .vobj fs => strField fs "name" && strField fs "command" && strField fs "text"
  | _ => false

/-- A top-level dict is well formed per the persisted layout: the three
string fields plus a string type, with a children array of well formed
children exactly when the type is parent. -/
def wfTopDict (v : V) : Bool :=
  match v with
  | .vobj fs =>
    strField fs "name" && strField fs "command" && strField fs "text" &&
    (match fieldsGet fs "type" with
     | some (V.vstr ty) =>
       if ty == "parent" then
         match fieldsGet fs "children" with
         | some (V.varr xs) => xs.all wfChildDict
         | _ => false
       else (fieldsGet fs "children").isNone
     | _ => false)
  | _ => false

/-- A well formed persisted collection. -/
def wfColl (l : List V) : Bool := l.all wfTopDict

theorem fieldsGet_fieldsSet_self (fs : List (String × V)) (k : String) (x : V) :
    fieldsGet (fieldsSet fs k x) k = some x := by
  induction fs with
  | nil => simp [fieldsSet, fieldsGet]
  | cons hd tl ih =>
    obtain ⟨k2, v⟩ := hd
    by_cases h : k2 = k <;> simp [fieldsSet, fieldsGet, h, ih]

theorem fieldsGet_fieldsSet_other (fs : List (String × V)) (k : String) (x : V)
    (k2 : String) (h : k2 ≠ k) :
    fieldsGet (fieldsSet fs k x) k2 = fieldsGet fs k2 := by
  induction fs with
  | nil => simp [fieldsSet, fieldsGet, h.symm]
  | cons hd tl ih =>
    obtain ⟨k3, v⟩ := hd
    by_cases h3 : k3 = k
    · subst h3
      simp [fieldsSet, fieldsGet, h.symm]
    · simp [fieldsSet, fieldsGet, h3, ih]

theorem listGet_of_lt (xs : List V) (i : Nat) (h : i < xs.length) :
    listGet xs i = .ok (xs.get ⟨i, h⟩) := by
  induction xs generalizing i with
  | nil => simp at h
  | cons hd tl ih =>
    cases i with
    | zero => simp [listGet]
    | succ n => simpa [listGet] using ih n (Nat.lt_of_succ_lt_succ h)

theorem listGet_of_ge (xs : List V) (i : Nat) (h : xs.length ≤ i) :
    listGet xs i = .error .indexError := by
  induction xs generalizing i with
  | nil => simp [listGet]
  | cons hd tl ih =>
    cases i with
    | zero => simp at h
    | succ n => simpa [listGet] using ih n (Nat.le_of_succ_le_succ h)

theorem listSet_of_lt (xs : List V) (i : Nat) (x : V) (h : i < xs.length) :
    listSet xs i x = .ok (xs.set i x) := by
  induction xs generalizing i with
  | nil => simp at h
  | cons hd tl ih =>
    cases i with
    | zero => simp [listSet]
    | succ n =>
      simp [listSet, ih n (Nat.lt_of_succ_lt_succ h), Except.map]

theorem listSet_of_ge (xs : List V) (i : Nat) (x : V) (h : xs.length ≤ i) :
    listSet xs i x = .error .indexError := by
  induction xs generalizing i with
  | nil => simp [listSet]
  | cons hd tl ih =>
    cases i with
    | zero => simp at h
    | succ n =>
      simp [listSet, ih n (Nat.le_of_succ_le_succ h), Except.map]

/-- C1: the claim says a present but structurally invalid store fails the
load with a surfaced error and keeps the persisted content; on the code, a
present but unparsable commands.json is instead silently replaced by the
empty array (no error escapes the class body, the previous bytes are
gone), and a parseable file with a missing required field is loaded
without any validation at all. -/
theorem c1_load_counterexample :
    (loadStore (some none)).errorSurfaced = false ∧
    (loadStore (some none)).fileAfter = some (V.varr []) ∧
    (loadStore (some (some (V.varr [V.vobj [("name", V.vstr "a")]])))).errorSurfaced
      = false ∧
    (loadStore (some (some (V.varr [V.vobj [("name", V.vstr "a")]])))).commands
      = V.varr [V.vobj [("name", V.vstr "a")]] :=
  ⟨rfl, rfl, rfl, rfl⟩

/-- C1 amended: load never surfaces an error; JSON that parses is loaded
as-is with no structural validation, while an absent or unparsable file
alike is silently overwritten with the empty array, dropping whatever
content was there. -/
theorem c1_load_amended (f : StoreFile) (v : V) :
    (loadStore f).errorSurfaced = false ∧
    (loadStore (some (some v))).commands = v ∧
    (loadStore (some (some v))).fileAfter = some v ∧
    (loadStore (some none)).commands = V.varr [] ∧
    (loadStore (some none)).fileAfter = some (V.varr []) ∧
    (loadStore none).commands = V.varr [] ∧
    (loadStore none).fileAfter = some (V.varr []) := by
  refine ⟨?_, rfl, rfl, rfl, rfl, rfl, rfl⟩
  rcases f with _ | _ | _ <;> rfl

theorem startsWithSlash_prepend (v : String) :
    startsWithSlash ("/" ++ v) = true := by
  simp [startsWithSlash, String.data_append]

/-- C5: a trigger supplied without the leading delimiter is stored with the
delimiter prepended (the handler writes the corrected value back into the
widget, whose change event stores it), a trigger already starting with the
delimiter is stored unchanged, and the value the save handler stores into
the collection on the add path is exactly this settled form value. -/
theorem c5_trigger_normalization :
    storedCommand "abc" = "/abc" ∧
    storedCommand "/abc" = "/abc" ∧
    (∀ v : String,
      storedCommand v = (if startsWithSlash v then v else "/" ++ v) ∧
      startsWithSlash (storedCommand v) = true ∧
      onCommandChanged (storedCommand v) = (storedCommand v, none)) ∧
    (∀ (commands : List V) (n c t : String),
      saveCommands commands ⟨none, none, n, storedCommand c, t⟩ =
        .ok (commands ++ [.vobj
          [("name", .vstr n), ("command", .vstr (storedCommand c)),
           ("text", .vstr t), ("type", .vstr "parent"),
           ("children", .varr [])]])) ∧
    (∀ (fs : List (String × V)) (n c t : String), ∃ fs2,
      saveCommands [.vobj fs] ⟨some 0, none, n, storedCommand c, t⟩ =
        .ok [.vobj fs2] ∧
      fieldsGet fs2 "command" = some (.vstr (storedCommand c))) := by
  have hstored : ∀ v : String,
      storedCommand v = (if startsWithSlash v then v else "/" ++ v) := by
    intro v
    by_cases h : startsWithSlash v = true <;>
      simp [storedCommand, onCommandChanged, h, startsWithSlash_prepend]
  have hslash : ∀ v : String, startsWithSlash (storedCommand v) = true := by
    intro v
    rw [hstored v]
    by_cases h : startsWithSlash v = true
    · simp [h]
    · simp [h, startsWithSlash_prepend]
  refine ⟨rfl, rfl, fun v => ⟨hstored v, hslash v, ?_⟩, fun commands n c t => rfl,
    fun fs n c t => ?_⟩
  · simp [onCommandChanged, hslash v]
  · refine ⟨_, rfl, ?_⟩
    rw [fieldsGet_fieldsSet_other _ _ _ _ (by decide),
      fieldsGet_fieldsSet_self]

/-- The effect of the save path on the persisted store: json.dump writes a
document that the json library parses back to the same value on the next
load (the library round trip at the file boundary). -/
def saveStore (commands : V) : StoreFile := some (some commands)

/-- C9: saving the loaded collection twice in a row writes byte-identical
content: the reload of a freshly saved store yields the same value, and
json.dump is a deterministic function of the value, so the second dump
produces exactly the first bytes. -/
theorem c9_save_load_idempotent (f : StoreFile) :
    (loadStore (saveStore ((loadStore f).commands))).commands
      = (loadStore f).commands ∧
    serializeJ ((loadStore (saveStore ((loadStore f).commands))).commands)
      = serializeJ ((loadStore f).commands) :=
  ⟨rfl, rfl⟩

theorem childPairOf_childDict (c : String) (cc : TChild) :
    childPairOf c (childDict cc) = .ok (c ++ cc.command, cc.text) := rfl

theorem childrenPairs_map_childDict (c : String) (ch : List TChild) :
    childrenPairs c (ch.map childDict)
      = .ok (ch.map fun cc => (c ++ cc.command, cc.text)) := by
  induction ch with
  | nil => rfl
  | cons hd tl ih =>
    simp [childrenPairs, childPairOf_childDict, ih, bind, Except.bind,
      pure, Except.pure]

theorem entryPairs_toDict (e : TEntry) :
    entryPairs (toDict e) = .ok (specEntryPairs e) := by
  cases e with
  | leaf n c t => rfl
  | parent n c t ch =>
    simp [entryPairs, toDict, specEntryPairs, objGet, fieldsGet, asStr,
      isParentTy, childrenPairs_map_childDict, bind, Except.bind, pure,
      Except.pure]

theorem listenPairs_map_toDict (ts : List TEntry) :
    listenPairs (ts.map toDict) = .ok (specCompile ts) := by
  induction ts with
  | nil => rfl
  | cons hd tl ih =>
    simp [listenPairs, entryPairs_toDict, ih, specCompile, bind,
      Except.bind, pure, Except.pure]

/-- C2: compiling a collection registers, for every top-level entry, the
pair of its trigger and text, and for every parent additionally, for each
child in order, the compound pair; in particular a parent with trigger /p
and text P having one child with trigger /c and text C compiles to exactly
the two-entry table mapping /p to P and /p/c to C. -/
theorem c2_compile_pairs (ts : List TEntry) :
    listenPairs (ts.map toDict) = .ok (specCompile ts) ∧
    listenPairs [toDict (.parent "parent" "/p" "P" [⟨"child", "/c", "C"⟩])]
      = .ok [("/p", "P"), ("/p/c", "C")] ∧
    regLookup [("/p", "P"), ("/p/c", "C")] "/p" = some "P" ∧
    regLookup [("/p", "P"), ("/p/c", "C")] "/p/c" = some "C" :=
  ⟨listenPairs_map_toDict ts, rfl, rfl, rfl⟩

/-- The dict the save handler appends under a parent: the new-command
literal of src/autotype.py lines 294-300 with its type rewritten to child
on line 302. -/
def newChildDict (n c t : String) : V :=
  .vobj [("name", .vstr n), ("command", .vstr c), ("text", .vstr t),
         ("type", .vstr "child"), ("children", .varr [])]

/-- Whether a stored entry is of Parent kind: a dict whose type field
holds the string parent. -/
def entryIsParent (v : V) : Bool :=
  match v with
  | .vobj fs =>
    match fieldsGet fs "type" with
    | some ty => isParentTy ty
    | none => false
  | _ => false

theorem listGet_eq (xs : List V) (i : Nat) (h : i < xs.length) :
    listGet xs i = .ok (xs.getD i (.vnum 0)) := by
  induction xs generalizing i with
  | nil => simp at h
  | cons hd tl ih =>
    cases i with
    | zero => simp [listGet]
    | succ n => simpa [listGet] using ih n (Nat.lt_of_succ_lt_succ h)

theorem getD_set_ne (l : List V) (i j : Nat) (x d : V) (h : i ≠ j) :
    (l.set i x).getD j d = l.getD j d := by
  induction l generalizing i j with
  | nil => simp
  | cons hd tl ih =>
    cases i with
    | zero =>
      cases j with
      | zero => exact absurd rfl h
      | succ m => simp
    | succ n =>
      cases j with
      | zero => simp
      | succ m => simpa using ih n m (fun e => h (by rw [e]))

theorem specCompile_append (a b : List TEntry) :
    specCompile (a ++ b) = specCompile a ++ specCompile b := by
  simp [specCompile]

theorem regLookup_append (xs ys : List (String × String)) (k : String) :
    regLookup (xs ++ ys) k = ((regLookup ys k).or (regLookup xs k)) := by
  simp only [regLookup, List.reverse_append, List.find?_append]
  cases h1 : ys.reverse.find? (fun p => p.1 == k) <;>
    cases h2 : xs.reverse.find? (fun p => p.1 == k) <;>
      simp [Option.or]

theorem regLookup_eq_none (ps : List (String × String)) (k : String)
    (h : ∀ q ∈ ps, q.1 ≠ k) : regLookup ps k = none := by
  have hf : ps.reverse.find? (fun p => p.1 == k) = none := by
    rw [List.find?_eq_none]
    intro x hx
    simpa using h x (List.mem_reverse.mp hx)
  simp [regLookup, hf]

theorem regLookup_singleton (k t : String) :
    regLookup [(k, t)] k = some t := by
  simp [regLookup, List.find?]

/-- C6: when two top-level leaf entries carry the identical trigger and no
later entry registers that trigger again, the compiled registrations map
the trigger to the text of the later entry, registration order following
collection order and a later registration overwriting an earlier one. -/
theorem c6_last_wins (ts1 ts2 ts3 : List TEntry) (n1 t1 n2 t2 k : String)
    (h : ∀ q ∈ specCompile ts3, q.1 ≠ k) :
    ∃ ps, listenPairs ((ts1 ++ [TEntry.leaf n1 k t1] ++ ts2 ++
        [TEntry.leaf n2 k t2] ++ ts3).map toDict) = .ok ps ∧
      regLookup ps k = some t2 := by
  refine ⟨_, listenPairs_map_toDict _, ?_⟩
  rw [specCompile_append, regLookup_append, regLookup_eq_none _ _ h]
  rw [specCompile_append, regLookup_append]
  have h2 : specCompile [TEntry.leaf n2 k t2] = [(k, t2)] := rfl
  rw [h2, regLookup_singleton]
  simp [Option.or]

/-- C6 witness: two leaves with trigger /x and texts T1 then T2 compile to
a table answering T2 for /x. -/
theorem c6_last_wins_witness :
    ∃ ps, listenPairs (([] ++ [TEntry.leaf "a" "/x" "T1"] ++ [] ++
        [TEntry.leaf "b" "/x" "T2"] ++ []).map toDict) = .ok ps ∧
      regLookup ps "/x" = some "T2" :=
  c6_last_wins [] [] [] "a" "T1" "b" "T2" "/x" (by simp [specCompile])

/-- C10: a top-level entry of child kind with no children field at all is
processed without error by both the listen_keys compilation (registering
exactly its own trigger and text) and the compose tree display (one leaf
node), since neither path reads a children field outside the parent
branch. -/
theorem c10_toplevel_leaf (idx : Nat) (n c t : String) :
    entryPairs (.vobj [("name", .vstr n), ("command", .vstr c),
        ("text", .vstr t), ("type", .vstr "child")]) = .ok [(c, t)] ∧
    listenPairs [.vobj [("name", .vstr n), ("command", .vstr c),
        ("text", .vstr t), ("type", .vstr "child")]] = .ok [(c, t)] ∧
    composeEntry idx (.vobj [("name", .vstr n), ("command", .vstr c),
        ("text", .vstr t), ("type", .vstr "child")])
      = .ok [⟨idx, none, "child", n, c, t⟩] :=
  ⟨rfl, rfl, rfl⟩

theorem wf_entry (commands : List V) (p : Nat) (hwf : wfColl commands = true)
    (hp : p < commands.length) :
    wfTopDict (commands.getD p (.vnum 0)) = true := by
  simp only [wfColl, List.all_eq_true] at hwf
  apply hwf
  rw [List.getD_eq_getElem _ _ hp]
  exact List.getElem_mem hp

theorem wf_not_parent_no_children (v : V) (hwf : wfTopDict v = true)
    (hnp : entryIsParent v = false) :
    ∃ fs, v = .vobj fs ∧ fieldsGet fs "children" = none := by
  cases v with
  | vstr s => simp [wfTopDict] at hwf
  | vnum n => simp [wfTopDict] at hwf
  | varr xs => simp [wfTopDict] at hwf
  | vobj fs =>
    refine ⟨fs, rfl, ?_⟩
    simp only [wfTopDict, Bool.and_eq_true] at hwf
    obtain ⟨h1, hm⟩ := hwf
    cases hty : fieldsGet fs "type" with
    | none => rw [hty] at hm; simp at hm
    | some ty =>
      rw [hty] at hm
      simp only [entryIsParent, hty] at hnp
      cases ty with
      | vstr s =>
        simp only [isParentTy] at hnp
        simpa [hnp] using hm
      | vnum m => simp at hm
      | varr xs => simp at hm
      | vobj gs => simp at hm

/-- C3: addChild (the save branch reached with no index and a parent set)
never silently succeeds on a bad parent: a parent index out of range hits
the list indexing and raises IndexError, and a parent index addressing a
non-Parent entry (which per the persisted layout carries no children
field) raises KeyError on the children access; either exception escapes
the handler to the caller. -/
theorem c3_addChild_errors (commands : List V) (p : Nat) (n c t : String)
    (hwf : wfColl commands = true) :
    (commands.length ≤ p →
      saveCommands commands ⟨none, some p, n, c, t⟩ = .error .indexError) ∧
    (p < commands.length →
      entryIsParent (commands.getD p (.vnum 0)) = false →
      saveCommands commands ⟨none, some p, n, c, t⟩
        = .error (.keyError "children")) := by
  constructor
  · intro hp
    simp [saveCommands, objSet, listGet_of_ge _ _ hp, bind, Except.bind]
  · intro hp hnp
    obtain ⟨fs, hv, hch⟩ :=
      wf_not_parent_no_children _ (wf_entry _ _ hwf hp) hnp
    have hget : listGet commands p = .ok (.vobj fs) := by
      rw [listGet_eq _ _ hp, hv]
    simp [saveCommands, objSet, hget, objGet, hch, bind, Except.bind]

/-- C3 witness: on a store holding one standalone child-kind leaf, adding
a child under parent index 1 raises IndexError and under parent index 0
(a non-Parent entry) raises KeyError on the children field. -/
theorem c3_addChild_errors_witness :
    saveCommands [.vobj [("name", .vstr "L"), ("command", .vstr "/l"),
        ("text", .vstr "T"), ("type", .vstr "child")]]
        ⟨none, some 1, "x", "/x", "X"⟩ = .error .indexError ∧
    saveCommands [.vobj [("name", .vstr "L"), ("command", .vstr "/l"),
        ("text", .vstr "T"), ("type", .vstr "child")]]
        ⟨none, some 0, "x", "/x", "X"⟩ = .error (.keyError "children") :=
  ⟨(c3_addChild_errors _ 1 "x" "/x" "X" (by decide)).1 (by decide),
   (c3_addChild_errors _ 0 "x" "/x" "X" (by decide)).2 (by decide) (by decide)⟩

/-- C4: the update path of the save handler never silently succeeds on an
invalid index: a top-level index beyond the collection, a parent index
beyond the collection, or a child index beyond the addressed parent
children list all hit the list indexing and raise IndexError, which
escapes the handler to the caller. -/
theorem c4_update_errors (commands : List V) (p i : Nat) (n c t : String) :
    (commands.length ≤ i →
      saveCommands commands ⟨some i, none, n, c, t⟩ = .error .indexError) ∧
    (commands.length ≤ p →
      saveCommands commands ⟨some i, some p, n, c, t⟩
        = .error .indexError) ∧
    (∀ fs chl, p < commands.length →
      commands.getD p (.vnum 0) = .vobj fs →
      fieldsGet fs "children" = some (.varr chl) →
      chl.length ≤ i →
      saveCommands commands ⟨some i, some p, n, c, t⟩
        = .error .indexError) := by
  refine ⟨fun hi => ?_, fun hp => ?_, fun fs chl hp hfs hch hi => ?_⟩
  · simp [saveCommands, listGet_of_ge _ _ hi, bind, Except.bind]
  · simp [saveCommands, listGet_of_ge _ _ hp, bind, Except.bind]
  · have hget : listGet commands p = .ok (.vobj fs) := by
      rw [listGet_eq _ _ hp, hfs]
    simp [saveCommands, hget, objGet, hch, listGet_of_ge _ _ hi, bind,
      Except.bind]

/-- C4 witness: on a store holding one parent with one child, updating
top-level index 5, or child index 7 under parent 0, or any child under
parent index 3, raises IndexError. -/
theorem c4_update_errors_witness :
    saveCommands [.vobj [("name", .vstr "P"), ("command", .vstr "/p"),
        ("text", .vstr "T"), ("type", .vstr "parent"),
        ("children", .varr [newChildDict "c" "/c" "C"])]]
        ⟨some 5, none, "x", "/x", "X"⟩ = .error .indexError ∧
    saveCommands [.vobj [("name", .vstr "P"), ("command", .vstr "/p"),
        ("text", .vstr "T"), ("type", .vstr "parent"),
        ("children", .varr [newChildDict "c" "/c" "C"])]]
        ⟨some 7, some 3, "x", "/x", "X"⟩ = .error .indexError ∧
    saveCommands [.vobj [("name", .vstr "P"), ("command", .vstr "/p"),
        ("text", .vstr "T"), ("type", .vstr "parent"),
        ("children", .varr [newChildDict "c" "/c" "C"])]]
        ⟨some 7, some 0, "x", "/x", "X"⟩ = .error .indexError :=
  ⟨(c4_update_errors _ 0 5 "x" "/x" "X").1 (by decide),
   (c4_update_errors _ 3 7 "x" "/x" "X").2.1 (by decide),
   (c4_update_errors _ 0 7 "x" "/x" "X").2.2
     [("name", .vstr "P"), ("command", .vstr "/p"), ("text", .vstr "T"),
      ("type", .vstr "parent"),
      ("children", .varr [newChildDict "c" "/c" "C"])]
     [newChildDict "c" "/c" "C"] (by decide) rfl rfl (by decide)⟩

theorem saveCommands_addChild (commands : List V) (p : Nat)
    (fs : List (String × V)) (chl : List V) (n c t : String)
    (hp : p < commands.length)
    (hfs : commands.getD p (.vnum 0) = .vobj fs)
    (hch : fieldsGet fs "children" = some (.varr chl)) :
    saveCommands commands ⟨none, some p, n, c, t⟩ =
      .ok (commands.set p (.vobj (fieldsSet fs "children"
        (.varr (chl ++ [newChildDict n c t]))))) := by
  have hget : listGet commands p = .ok (.vobj fs) := by
    rw [listGet_eq _ _ hp, hfs]
  have hnew : objSet (V.vobj [("name", .vstr n), ("command", .vstr c),
      ("text", .vstr t), ("type", .vstr "parent"),
      ("children", .varr [])]) "type" (.vstr "child")
        = .ok (newChildDict n c t) := rfl
  simp [saveCommands, hnew, hget, objGet, hch, objSet,
    listSet_of_lt _ _ _ hp, bind, Except.bind]
  rfl

/-- C7: the claim says a child appended via addChild is persisted with
exactly the three fields name, command and text, children fields living
only on Parent entries; on the code the appended child dict carries five
fields, including type (child) and an empty children array. -/
theorem c7_child_fields_counterexample :
    saveCommands [.vobj [("name", .vstr "P"), ("command", .vstr "/p"),
        ("text", .vstr "T"), ("type", .vstr "parent"),
        ("children", .varr [])]] ⟨none, some 0, "c", "/c", "C"⟩
      = .ok [.vobj [("name", .vstr "P"), ("command", .vstr "/p"),
        ("text", .vstr "T"), ("type", .vstr "parent"),
        ("children", .varr [newChildDict "c" "/c" "C"])]] ∧
    fieldKeys (newChildDict "c" "/c" "C")
      = ["name", "command", "text", "type", "children"] ∧
    fieldKeys (newChildDict "c" "/c" "C") ≠ ["name", "command", "text"] ∧
    objGet (newChildDict "c" "/c" "C") "type" = .ok (.vstr "child") ∧
    objGet (newChildDict "c" "/c" "C") "children" = .ok (.varr []) :=
  ⟨rfl, rfl, by decide, rfl, rfl⟩

/-- C7 amended: a child appended via addChild and persisted consists of
exactly five fields, name, command, text, type holding child and children
holding the empty array, so a children field is present also on
Child-kind entries created by the app and not only on Parents. -/
theorem c7_child_fields_amended (commands : List V) (p : Nat)
    (fs : List (String × V)) (chl : List V) (n c t : String)
    (hp : p < commands.length)
    (hfs : commands.getD p (.vnum 0) = .vobj fs)
    (hch : fieldsGet fs "children" = some (.varr chl)) :
    saveCommands commands ⟨none, some p, n, c, t⟩ =
      .ok (commands.set p (.vobj (fieldsSet fs "children"
        (.varr (chl ++ [newChildDict n c t]))))) ∧
    fieldKeys (newChildDict n c t)
      = ["name", "command", "text", "type", "children"] ∧
    objGet (newChildDict n c t) "name" = .ok (.vstr n) ∧
    objGet (newChildDict n c t) "command" = .ok (.vstr c) ∧
    objGet (newChildDict n c t) "text" = .ok (.vstr t) ∧
    objGet (newChildDict n c t) "type" = .ok (.vstr "child") ∧
    objGet (newChildDict n c t) "children" = .ok (.varr []) :=
  ⟨saveCommands_addChild commands p fs chl n c t hp hfs hch,
   rfl, rfl, rfl, rfl, rfl, rfl⟩

/-- C7 witness: appending a child under the sole parent of a one-entry
store succeeds and stores the five-field child dict. -/
theorem c7_child_fields_amended_witness :
    saveCommands [.vobj [("name", .vstr "P"), ("command", .vstr "/p"),
        ("text", .vstr "T"), ("type", .vstr "parent"),
        ("children", .varr [])]] ⟨none, some 0, "d", "/d", "D"⟩
      = .ok [.vobj [("name", .vstr "P"), ("command", .vstr "/p"),
        ("text", .vstr "T"), ("type", .vstr "parent"),
        ("children", .varr [newChildDict "d" "/d" "D"])]] :=
  (c7_child_fields_amended
    [.vobj [("name", .vstr "P"), ("command", .vstr "/p"),
      ("text", .vstr "T"), ("type", .vstr "parent"),
      ("children", .varr [])]] 0
    [("name", .vstr "P"), ("command", .vstr "/p"), ("text", .vstr "T"),
      ("type", .vstr "parent"), ("children", .varr [])]
    [] "d" "/d" "D" (by decide) rfl rfl).1

/-- The three in-place field assignments the update path performs on the
addressed entry dict (name, then command, then text). -/
def updFields (fs : List (String × V)) (n c t : String) :
    List (String × V) :=
  fieldsSet (fieldsSet (fieldsSet fs "name" (.vstr n)) "command" (.vstr c))
    "text" (.vstr t)

theorem updFields_name (fs : List (String × V)) (n c t : String) :
    fieldsGet (updFields fs n c t) "name" = some (.vstr n) := by
  rw [updFields, fieldsGet_fieldsSet_other _ _ _ _ (by decide),
    fieldsGet_fieldsSet_other _ _ _ _ (by decide), fieldsGet_fieldsSet_self]

theorem updFields_command (fs : List (String × V)) (n c t : String) :
    fieldsGet (updFields fs n c t) "command" = some (.vstr c) := by
  rw [updFields, fieldsGet_fieldsSet_other _ _ _ _ (by decide),
    fieldsGet_fieldsSet_self]

theorem updFields_text (fs : List (String × V)) (n c t : String) :
    fieldsGet (updFields fs n c t) "text" = some (.vstr t) := by
  rw [updFields, fieldsGet_fieldsSet_self]

theorem updFields_other (fs : List (String × V)) (n c t : String)
    (k : String) (h1 : k ≠ "name") (h2 : k ≠ "command")
    (h3 : k ≠ "text") :
    fieldsGet (updFields fs n c t) k = fieldsGet fs k := by
  rw [updFields, fieldsGet_fieldsSet_other _ _ _ _ h3,
    fieldsGet_fieldsSet_other _ _ _ _ h2,
    fieldsGet_fieldsSet_other _ _ _ _ h1]

theorem getD_set_self (l : List V) (i : Nat) (x d : V)
    (h : i < l.length) : (l.set i x).getD i d = x := by
  induction l generalizing i with
  | nil => simp at h
  | cons hd tl ih =>
    cases i with
    | zero => simp
    | succ m => simpa using ih m (Nat.lt_of_succ_lt_succ h)

theorem saveCommands_update_top (commands : List V) (i : Nat)
    (fs : List (String × V)) (n c t : String)
    (hi : i < commands.length)
    (hfs : commands.getD i (.vnum 0) = .vobj fs) :
    saveCommands commands ⟨some i, none, n, c, t⟩ =
      .ok (commands.set i (.vobj (updFields fs n c t))) := by
  have hget : listGet commands i = .ok (.vobj fs) := by
    rw [listGet_eq _ _ hi, hfs]
  simp [saveCommands, hget, objSet, listSet_of_lt _ _ _ hi, updFields,
    bind, Except.bind]

theorem saveCommands_update_child (commands : List V) (p i : Nat)
    (fs cfs : List (String × V)) (chl : List V) (n c t : String)
    (hp : p < commands.length)
    (hfs : commands.getD p (.vnum 0) = .vobj fs)
    (hch : fieldsGet fs "children" = some (.varr chl))
    (hi : i < chl.length)
    (hcfs : chl.getD i (.vnum 0) = .vobj cfs) :
    saveCommands commands ⟨some i, some p, n, c, t⟩ =
      .ok (commands.set p (.vobj (fieldsSet fs "children"
        (.varr (chl.set i (.vobj (updFields cfs n c t))))))) := by
  have hget1 : listGet commands p = .ok (.vobj fs) := by
    rw [listGet_eq _ _ hp, hfs]
  have hget2 : listGet chl i = .ok (.vobj cfs) := by
    rw [listGet_eq _ _ hi, hcfs]
  simp [saveCommands, hget1, objGet, hch, hget2, objSet,
    listSet_of_lt _ _ _ hi, listSet_of_lt _ _ _ hp, updFields,
    bind, Except.bind]

/-- C8: a valid update followed by a reload shows exactly the new name,
command and text on the addressed entry, leaves every other field of that
entry (its type and its children in particular) as it was, and leaves
every sibling entry, at both the top level and inside the addressed
parent, untouched. -/
theorem c8_update_frame :
    (∀ (commands : List V) (i : Nat) (fs : List (String × V))
        (n c t : String),
      i < commands.length →
      commands.getD i (.vnum 0) = .vobj fs →
      ∃ commands2,
        saveCommands commands ⟨some i, none, n, c, t⟩ = .ok commands2 ∧
        (loadStore (saveStore (.varr commands2))).commands
          = .varr commands2 ∧
        commands2.length = commands.length ∧
        commands2.getD i (.vnum 0) = .vobj (updFields fs n c t) ∧
        fieldsGet (updFields fs n c t) "name" = some (.vstr n) ∧
        fieldsGet (updFields fs n c t) "command" = some (.vstr c) ∧
        fieldsGet (updFields fs n c t) "text" = some (.vstr t) ∧
        (∀ k, k ≠ "name" → k ≠ "command" → k ≠ "text" →
          fieldsGet (updFields fs n c t) k = fieldsGet fs k) ∧
        (∀ j, j ≠ i →
          commands2.getD j (.vnum 0) = commands.getD j (.vnum 0))) ∧
    (∀ (commands : List V) (p i : Nat) (fs cfs : List (String × V))
        (chl : List V) (n c t : String),
      p < commands.length →
      commands.getD p (.vnum 0) = .vobj fs →
      fieldsGet fs "children" = some (.varr chl) →
      i < chl.length →
      chl.getD i (.vnum 0) = .vobj cfs →
      ∃ commands2 chl2,
        saveCommands commands ⟨some i, some p, n, c, t⟩ = .ok commands2 ∧
        (loadStore (saveStore (.varr commands2))).commands
          = .varr commands2 ∧
        commands2.length = commands.length ∧
        commands2.getD p (.vnum 0)
          = .vobj (fieldsSet fs "children" (.varr chl2)) ∧
        (∀ k, k ≠ "children" →
          fieldsGet (fieldsSet fs "children" (.varr chl2)) k
            = fieldsGet fs k) ∧
        chl2.length = chl.length ∧
        chl2.getD i (.vnum 0) = .vobj (updFields cfs n c t) ∧
        fieldsGet (updFields cfs n c t) "name" = some (.vstr n) ∧
        fieldsGet (updFields cfs n c t) "command" = some (.vstr c) ∧
        fieldsGet (updFields cfs n c t) "text" = some (.vstr t) ∧
        (∀ k, k ≠ "name" → k ≠ "command" → k ≠ "text" →
          fieldsGet (updFields cfs n c t) k = fieldsGet cfs k) ∧
        (∀ j, j ≠ i → chl2.getD j (.vnum 0) = chl.getD j (.vnum 0)) ∧
        (∀ j, j ≠ p →
          commands2.getD j (.vnum 0) = commands.getD j (.vnum 0))) := by
  constructor
  · intro commands i fs n c t hi hfs
    refine ⟨commands.set i (.vobj (updFields fs n c t)),
      saveCommands_update_top commands i fs n c t hi hfs, rfl,
      List.length_set _ _ _, getD_set_self _ _ _ _ hi,
      updFields_name fs n c t, updFields_command fs n c t,
      updFields_text fs n c t, updFields_other fs n c t,
      fun j hj => getD_set_ne _ _ _ _ _ (fun e => hj e.symm)⟩
  · intro commands p i fs cfs chl n c t hp hfs hch hi hcfs
    refine ⟨commands.set p (.vobj (fieldsSet fs "children"
        (.varr (chl.set i (.vobj (updFields cfs n c t)))))),
      chl.set i (.vobj (updFields cfs n c t)),
      saveCommands_update_child commands p i fs cfs chl n c t
        hp hfs hch hi hcfs, rfl,
      List.length_set _ _ _, getD_set_self _ _ _ _ hp,
      fun k hk => fieldsGet_fieldsSet_other fs "children" _ k hk,
      List.length_set _ _ _, getD_set_self _ _ _ _ hi,
      updFields_name cfs n c t, updFields_command cfs n c t,
      updFields_text cfs n c t, updFields_other cfs n c t,
      fun j hj => getD_set_ne _ _ _ _ _ (fun e => hj e.symm),
      fun j hj => getD_set_ne _ _ _ _ _ (fun e => hj e.symm)⟩

/-- C8 witness: updating the sole child of the sole parent of a concrete
store succeeds, and so does updating the parent itself at the top level. -/
theorem c8_update_frame_witness :
    (∃ commands2, saveCommands
      [.vobj [("name", .vstr "P"), ("command", .vstr "/p"),
        ("text", .vstr "T"), ("type", .vstr "parent"),
        ("children", .varr [newChildDict "c" "/c" "C"])]]
      ⟨some 0, none, "n2", "/p2", "T2"⟩ = .ok commands2) ∧
    (∃ commands2, saveCommands
      [.vobj [("name", .vstr "P"), ("command", .vstr "/p"),
        ("text", .vstr "T"), ("type", .vstr "parent"),
        ("children", .varr [newChildDict "c" "/c" "C"])]]
      ⟨some 0, some 0, "n3", "/c3", "C3"⟩ = .ok commands2) := by
  constructor
  · obtain ⟨c2, h, -⟩ := c8_update_frame.1
      [.vobj [("name", .vstr "P"), ("command", .vstr "/p"),
        ("text", .vstr "T"), ("type", .vstr "parent"),
        ("children", .varr [newChildDict "c" "/c" "C"])]] 0
      [("name", .vstr "P"), ("command", .vstr "/p"),
        ("text", .vstr "T"), ("type", .vstr "parent"),
        ("children", .varr [newChildDict "c" "/c" "C"])]
      "n2" "/p2" "T2" (by decide) rfl
    exact ⟨c2, h⟩
  · obtain ⟨c2, chl2, h, -⟩ := c8_update_frame.2
      [.vobj [("name", .vstr "P"), ("command", .vstr "/p"),
        ("text", .vstr "T"), ("type", .vstr "parent"),
        ("children", .varr [newChildDict "c" "/c" "C"])]] 0 0
      [("name", .vstr "P"), ("command", .vstr "/p"),
        ("text", .vstr "T"), ("type", .vstr "parent"),
        ("children", .varr [newChildDict "c" "/c" "C"])]
      [("name", .vstr "c"), ("command", .vstr "/c"), ("text", .vstr "C"),
        ("type", .vstr "child"), ("children", .varr [])]
      [newChildDict "c" "/c" "C"]
      "n3" "/c3" "C3" (by decide) rfl rfl (by decide) rfl
    exact ⟨c2, h⟩

end Autotype
